import Mathlib

/-!
Verification development for the haydi/pyqit repository.

The repository provides a domain/iterator algebra (combinatorial domains with
step-jump addressing and map/filter/take transformations), a canonical
comparator over structured values containing atoms, and a distributed job
scheduler (`DistributedComputation.iterate_jobs` / `DistributedContext.run`
in `src/haydi/base/runtime/distributedcontext.py`).

The scheduler code is embedded directly from
`src/haydi/base/runtime/distributedcontext.py`.  The comparator module
(`haydi/base/basictypes.py`) and the domain/transformation module are not
part of the available sources; they are modelled from the specification,
with every behavioural detail cross-checked against the repository's own
test-suite (`tests/test_basictypes.py`, `tests/test_transforms.py`), which
is part of the sources and is authoritative where it pins behaviour.
-/

namespace Haydi

/-! ### Basic types: values, atoms, maps

Modelled from the spec: `haydi/base/basictypes.py` is missing from the
sources.  A structured value is a number, a string, an atom (identified by
its ASet name and its index inside the set), a tuple/sequence, or a map of
key/value pairs stored in canonical sorted order.  `tests/test_basictypes.py`
fixes the comparator's behaviour: the type rank places atoms below numbers
(`compare(a1, 10) == -1`), numbers below strings, strings below sequences
(`compare((a1,), "C") == 1`), and sequences below maps; sequences and maps
of different lengths are ordered by length first
(`compare((a2,), (a1, a3)) == -1`), and equal-length containers are
compared element-wise.
-/

mutual

inductive Value where
  | num (n : Int)
  | str (s : String)
  | atom (set : String) (index : Nat)
  | seq (items : ValueList)
  | map (pairs : PairList)
deriving Repr, DecidableEq

inductive ValueList where
  | nil
  | cons (v : Value) (rest : ValueList)
deriving Repr, DecidableEq

inductive PairList where
  | nil
  | cons (key : Value) (value : Value) (rest : PairList)
deriving Repr, DecidableEq

end

def ValueList.length : ValueList → Nat
  | .nil => 0
  | .cons _ rest => rest.length + 1

def PairList.length : PairList → Nat
  | .nil => 0
  | .cons _ _ rest => rest.length + 1

/-- Three-way comparison of naturals, Python-`cmp` style. -/
def cmpNat (a b : Nat) : Int :=
  if a < b then -1 else if b < a then 1 else 0

/-- Three-way comparison of integers, Python-`cmp` style. -/
def cmpInt (a b : Int) : Int :=
  if a < b then -1 else if b < a then 1 else 0

/-- Lexicographic three-way comparison of character lists, by code point;
a strict prefix compares as less (Python string comparison). -/
def cmpChars : List Char → List Char → Int
  | [], [] => 0
  | [], _ :: _ => -1
  | _ :: _, [] => 1
  | c :: cs, d :: ds =>
      if c.toNat < d.toNat then -1
      else if d.toNat < c.toNat then 1
      else cmpChars cs ds

/-- Three-way comparison of strings, Python-`cmp` style (lexicographic by
code point). -/
def cmpStr (a b : String) : Int :=
  cmpChars a.data b.data

mutual

/-- Modelled from the spec: total-order comparator over structured values
(`compare` in `haydi/base/basictypes.py`, absent from the sources).
Cross-type comparisons resolve by a fixed type rank; the rank order is the
one fixed by `tests/test_basictypes.py::test_compare_types`:
atoms < numbers < strings < sequences < maps (the spec text instead claims
numbers < strings < atoms, which those tests contradict).  Atoms compare by
set name first, then index; sequences and map pair-lists compare by length
first, then element-wise (fixed by `test_compare_lists` and
`test_compare_maps`). -/
def compare (v w : Value) : Int :=
  match v, w with
  | .atom s1 i1, .atom s2 i2 =>
      let c := cmpStr s1 s2
      if c = 0 then cmpNat i1 i2 else c
  | .atom _ _, _ => -1
  | _, .atom _ _ => 1
  | .num a, .num b => cmpInt a b
  | .num _, _ => -1
  | _, .num _ => 1
  | .str a, .str b => cmpStr a b
  | .str _, _ => -1
  | _, .str _ => 1
  | .seq xs, .seq ys =>
      if xs.length < ys.length then -1
      else if ys.length < xs.length then 1
      else compareItems xs ys
  | .seq _, .map _ => -1
  | .map _, .seq _ => 1
  | .map ps, .map qs =>
      if ps.length < qs.length then -1
      else if qs.length < ps.length then 1
      else comparePairItems ps qs
termination_by structural v

/-- Element-wise lexicographic comparison of two equal-length sequences. -/
def compareItems (xs ys : ValueList) : Int :=
  match xs, ys with
  | .nil, _ => 0
  | _, .nil => 0
  | .cons x xs, .cons y ys =>
      let c := compare x y
      if c = 0 then compareItems xs ys else c
termination_by structural xs

/-- Element-wise comparison of two equal-length canonical pair lists:
each pair compares by key, then by value. -/
def comparePairItems (ps qs : PairList) : Int :=
  match ps, qs with
  | .nil, _ => 0
  | _, .nil => 0
  | .cons k1 v1 ps, .cons k2 v2 qs =>
      let c := compare k1 k2
      if c = 0 then
        let c2 := compare v1 v2
        if c2 = 0 then comparePairItems ps qs else c2
      else c
termination_by structural ps

end

/-- Comparison of two key/value pairs: key first, then value. -/
def cmpPair (k1 v1 k2 v2 : Value) : Int :=
  let c := compare k1 k2
  if c = 0 then compare v1 v2 else c

/-- Ordered insertion of a pair into a canonical pair list. -/
def insertPair (k v : Value) : PairList → PairList
  | .nil => .cons k v .nil
  | .cons k' v' rest =>
      if cmpPair k v k' v' ≤ 0 then .cons k v (.cons k' v' rest)
      else .cons k' v' (insertPair k v rest)

/-- Canonical sort of a pair list by the comparator (key first, then value). -/
def sortPairs : PairList → PairList
  | .nil => .nil
  | .cons k v rest => insertPair k v (sortPairs rest)

/-- Modelled from the spec: the `Map` constructor of
`haydi/base/basictypes.py` stores its pairs in canonical sorted order
(spec section 3: "pairs are stored in canonical sorted order for comparison
purposes"). -/
def Map (pairs : PairList) : Value :=
  .map (sortPairs pairs)

/-- An atom identity: (ASet name, index within the set). -/
abbrev AtomId := String × Nat

/-- A bindings map for `compare2`: a finite association of atoms to atoms. -/
abbrev Bindings := List (AtomId × AtomId)

/-- First-match lookup in a bindings map. -/
def lookupAtom : Bindings → AtomId → Option AtomId
  | [], _ => none
  | (k, v) :: rest, a => if k = a then some v else lookupAtom rest a

mutual

/-- Modelled from the spec: per-operand atom substitution used by
`compare2` — every atom present in the bindings map is replaced by its
bound atom, atoms absent from the map are kept literally, containers are
rebuilt (maps through the canonicalizing constructor, as required by
`tests/test_basictypes.py::test_compare2_maps`). -/
def substAtoms (b : Bindings) (v : Value) : Value :=
  match v with
  | .num n => .num n
  | .str s => .str s
  | .atom s i =>
      match lookupAtom b (s, i) with
      | some (t, j) => .atom t j
      | none => .atom s i
  | .seq xs => .seq (substItems b xs)
  | .map ps => Map (substPairs b ps)
termination_by structural v

/-- Atom substitution mapped over a sequence. -/
def substItems (b : Bindings) (xs : ValueList) : ValueList :=
  match xs with
  | .nil => .nil
  | .cons x rest => .cons (substAtoms b x) (substItems b rest)
termination_by structural xs

/-- Atom substitution mapped over the pairs of a map. -/
def substPairs (b : Bindings) (ps : PairList) : PairList :=
  match ps with
  | .nil => .nil
  | .cons k v rest => .cons (substAtoms b k) (substAtoms b v) (substPairs b rest)
termination_by structural ps

end

/-- Modelled from the spec: `compare2(a, bindings_a, b, bindings_b)` —
like `compare`, but each operand's atoms are first resolved through that
operand's own bindings map before the structural comparison. -/
def compare2 (v1 : Value) (b1 : Bindings) (v2 : Value) (b2 : Bindings) : Int :=
  compare (substAtoms b1 v1) (substAtoms b2 v2)

/-- The fixed type rank used by `compare` for cross-type comparisons. -/
def typeRank : Value → Nat
  | .atom _ _ => 0
  | .num _ => 1
  | .str _ => 2
  | .seq _ => 3
  | .map _ => 4

/-! ### Domain & transformation algebra

Modelled from the spec: the haydi domain/transformation module is missing
from the sources.  A domain carries an optional logical size, an optional
count of addressable positions (`steps`), the `filtered` and `strict`
flags, and position-addressed enumeration `iterate_steps start stop`
over positions `[start, stop)` (spec section 4.1).  The model is validated
against `tests/test_transforms.py`. -/

structure Dom (α : Type) where
  size : Option Nat
  steps : Option Nat
  filtered : Bool
  strict : Bool
  iterate_steps : Nat → Nat → List α

/-- Modelled from the spec: `Range(n)` — `size = steps = n`, not filtered,
strict; `iterate_steps start stop` yields the integers in `[start, stop)`
clipped to the domain. -/
def Range (n : Nat) : Dom Nat where
  size := some n
  steps := some n
  filtered := false
  strict := true
  iterate_steps := fun start stop => List.range' start (min stop n - start)

/-- Modelled from the spec: `map(f)` wraps the parent;
`size = steps = parent.steps`; `strict` inherited; enumeration re-maps the
parent's output. -/
def Dom.map (d : Dom α) (f : α → β) : Dom β where
  size := d.steps
  steps := d.steps
  filtered := d.filtered
  strict := d.strict
  iterate_steps := fun start stop => (d.iterate_steps start stop).map f

/-- Modelled from the spec: `filter(pred)` wraps the parent;
`filtered = True`, `size = None` (unknown until scanned) while
`steps = parent.steps` — the position space is unchanged, but only
positions whose element satisfies the predicate yield an output. -/
def Dom.filter (d : Dom α) (p : α → Bool) : Dom α where
  size := none
  steps := d.steps
  filtered := true
  strict := false
  iterate_steps := fun start stop => (d.iterate_steps start stop).filter p

/-- `min` against an optional parent count: the cap `k` when the parent
count is unknown, the smaller of the two otherwise. -/
def capSize (o : Option Nat) (k : Nat) : Option Nat :=
  match o with
  | some s => some (min s k)
  | none => some k

/-- Modelled from the spec: `take(k)` wraps the parent;
`size = min(parent.size, k)` when the parent size is known, else `k`;
`steps` similarly capped; enumeration is clipped to the first `k`
positions. -/
def Dom.take (d : Dom α) (k : Nat) : Dom α where
  size := capSize d.size k
  steps := capSize d.steps k
  filtered := d.filtered
  strict := d.strict
  iterate_steps := fun start stop => d.iterate_steps (min start k) (min stop k)

/-! ### Job scheduler

Embedded from `src/haydi/base/runtime/distributedcontext.py`.

`DistributedComputation.iterate_jobs` runs a caller-driven polling loop:
while neither `scheduler.completed` nor `scheduler.canceled` is set, it
checks the timeout manager (raising `TimeoutException` when the deadline
has passed), then attempts a non-blocking fetch from the completed-job
queue, appending a fetched job to the local `jobs` list, sleeping when the
queue is empty.  When the loop exits because a flag was set, the remaining
queue contents are drained into `jobs`; `TimeoutException` and
`KeyboardInterrupt` are caught (skipping the drain), the scheduler is
stopped, and `jobs` is sorted by `start_index` and returned.

The concurrent environment (worker completions arriving on the queue, the
scheduler flags being set, the wall clock passing the deadline, the user
interrupting) is modelled as a trace: one `EnvStep` per loop iteration,
applied before the loop-head check of that iteration.  A trace too short
to end the loop models a run still in progress (`pollLoop` returns
`none`). -/

structure Job (α : Type) where
  start_index : Nat
  size : Nat
  result : α
deriving Repr, DecidableEq

structure EnvStep (α : Type) where
  arrivals : List (Job α)
  setCompleted : Bool
  setCanceled : Bool
  timeouted : Bool
  interrupted : Bool
deriving Repr

/-- How the polling loop in `iterate_jobs` ended: normally (a scheduler
flag was observed set), by `TimeoutException`, or by `KeyboardInterrupt`. -/
inductive ExitKind where
  | normal
  | timeout
  | interrupt
deriving Repr, DecidableEq

/-- Observable outcome of the polling loop: how it ended, the jobs fetched
from the queue during polling (in fetch order), and the completed jobs
still sitting unfetched in the queue when the loop ended. -/
structure LoopOut (α : Type) where
  exit : ExitKind
  fetched : List (Job α)
  queueAtExit : List (Job α)
deriving Repr, DecidableEq

/-- The polling loop of `DistributedComputation.iterate_jobs`
(distributedcontext.py lines 38-48).  `timeoutEnabled` models
`self.timeout_mgr` being non-`None`; each iteration first applies the
pending environment effects, then mirrors the source: check the
`completed`/`canceled` flags, check the timeout, deliver a pending
interrupt, otherwise attempt one non-blocking queue fetch. -/
def pollLoop (timeoutEnabled : Bool) :
    List (EnvStep α) → Bool → Bool → List (Job α) → List (Job α) → Option (LoopOut α)
  | [], _, _, _, _ => none
  | step :: env, completed0, canceled0, queue0, fetched =>
    let completed := completed0 || step.setCompleted
    let canceled := canceled0 || step.setCanceled
    let queue := queue0 ++ step.arrivals
    if completed || canceled then some ⟨.normal, fetched, queue⟩
    else if timeoutEnabled && step.timeouted then some ⟨.timeout, fetched, queue⟩
    else if step.interrupted then some ⟨.interrupt, fetched, queue⟩
    else
      match queue with
      | j :: rest => pollLoop timeoutEnabled env completed canceled rest (fetched ++ [j])
      | [] => pollLoop timeoutEnabled env completed canceled [] fetched

/-- The jobs held in the local `jobs` list when `iterate_jobs` reaches the
final sort: on a normal exit the remaining queue was drained
(distributedcontext.py lines 50-55, inside the `try` block); on the
`TimeoutException` / `KeyboardInterrupt` paths control jumps straight to
the handlers and the drain is skipped. -/
def jobsRetained (out : LoopOut α) : List (Job α) :=
  match out.exit with
  | .normal => out.fetched ++ out.queueAtExit
  | .timeout => out.fetched
  | .interrupt => out.fetched

/-- Comparison key of the final sort: `job.start_index` ascending. -/
def jobLE (a b : Job α) : Prop := a.start_index ≤ b.start_index

instance : DecidableRel (@jobLE α) := fun a b => Nat.decLe a.start_index b.start_index

instance : IsTotal (Job α) jobLE := ⟨fun a b => Nat.le_total a.start_index b.start_index⟩

instance : IsTrans (Job α) jobLE := ⟨fun _ _ _ => Nat.le_trans⟩

/-- The final re-sort of `iterate_jobs`:
`jobs.sort(key=lambda job: job.start_index)` (line 66). -/
def sortJobs (jobs : List (Job α)) : List (Job α) :=
  List.insertionSort jobLE jobs

/-- `DistributedComputation.iterate_jobs` (lines 33-68) driven by an
environment trace: run the polling loop, retain the fetched jobs (plus the
drained queue on a normal exit), sort by `start_index`, return.  Both
exception paths are caught inside the function, so every terminating run
produces a job list. -/
def iterate_jobs (timeoutEnabled : Bool) (env : List (EnvStep α)) :
    Option (List (Job α)) :=
  (pollLoop timeoutEnabled env false false [] []).map fun out =>
    sortJobs (jobsRetained out)

/-- Python truthiness of `domain.steps` (`if size:` on line 186 with
`size = domain.steps` from line 155): false for `None` and for `0`. -/
def truthy : Option Nat → Bool
  | some (_ + 1) => true
  | some 0 => false
  | none => false

/-- Python list slicing `results[:stop]` where `stop` may be `None`
(`results[:domain.size]`, line 187): `None` keeps the whole list. -/
def pySlice (stop : Option Nat) (l : List γ) : List γ :=
  match stop with
  | none => l
  | some n => l.take n

/-- Result of `DistributedContext.run` past the job collection: the value
(either the result list, or the single globally reduced value), plus
whether the global reduce function and the `global_reduce_init` callable
were invoked. -/
structure RunOut (γ : Type) where
  value : List γ ⊕ γ
  foldApplied : Bool
  initInvoked : Bool
deriving DecidableEq

/-- The trimming step of `DistributedContext.run` (lines 186-187):
`if size: results = results[:domain.size]` with `size = domain.steps`. -/
def trimResults (domainSteps domainSize : Option Nat) (results : List γ) : List γ :=
  if truthy domainSteps then pySlice domainSize results else results

/-- The result-processing tail of `DistributedContext.run`
(lines 186-199): trim the result list to `domain.size` when
`domain.steps` is truthy; then return the list unchanged when no global
reduce function is given or the list is empty, otherwise fold it
left-to-right (`reduce`), seeded with `global_reduce_init()` when an init
is supplied and with the first result otherwise. -/
def runPost (domainSteps domainSize : Option Nat)
    (global_reduce_fn : Option (γ → γ → γ))
    (global_reduce_init : Option (Unit → γ)) (results0 : List γ) : RunOut γ :=
  let results := trimResults domainSteps domainSize results0
  match global_reduce_fn with
  | none => ⟨.inl results, false, false⟩
  | some f =>
    match results, global_reduce_init with
    | [], _ => ⟨.inl [], false, false⟩
    | r :: rs, none => ⟨.inr (rs.foldl f r), true, false⟩
    | r :: rs, some ginit => ⟨.inr ((r :: rs).foldl f (ginit ())), true, true⟩

/-- `DistributedContext.run` (lines 151-199) for the case
`worker_reduce_fn is None`: each job result is a list of enumerated
elements, and the per-job results are concatenated
(`itertools.chain.from_iterable`, line 184) in the order of the sorted job
list before trimming and the optional global reduce. -/
def run (timeoutEnabled : Bool) (env : List (EnvStep (List β)))
    (domainSteps domainSize : Option Nat)
    (global_reduce_fn : Option (β → β → β))
    (global_reduce_init : Option (Unit → β)) : Option (RunOut β) :=
  (iterate_jobs timeoutEnabled env).map fun jobs =>
    runPost domainSteps domainSize global_reduce_fn global_reduce_init
      ((jobs.map Job.result).flatten)

/-! ### Model validation against the repository's tests -/

/-- The comparator model reproduces the five assertions of
`tests/test_basictypes.py::test_compare_types` (with `ax = ASet(3, "a")`,
`a1 = ax.get(1)`): an atom is below a number, below a string, and below a
one-element tuple; a string is below a map; a tuple is above a string. -/
theorem model_matches_test_compare_types :
    compare (.atom "a" 1) (.num 10) = -1 ∧
    compare (.atom "a" 1) (.str "A") = -1 ∧
    compare (.atom "a" 1) (.seq (.cons (.atom "a" 1) .nil)) = -1 ∧
    compare (.str "B") (Map (.cons (.atom "a" 1) (.atom "a" 1) .nil)) = -1 ∧
    compare (.seq (.cons (.atom "a" 1) .nil)) (.str "C") = 1 := by
  decide

/-- The transformation model reproduces
`tests/test_transforms.py::test_sparse_map`:
`Range(6).filter(odd).map(x*10).iterate_steps(0, 5) == [10, 30]`. -/
theorem model_matches_test_sparse_map :
    (((Range 6).filter (fun x => x % 2 == 1)).map (fun x => x * 10)).iterate_steps 0 5
      = [10, 30] := by
  decide

/-! ### Claims -/

/-- C1, counterexample: the claim asserts `compare(a, n) == 1` for every
atom `a` and number `n`, and `compare(a, s) == 1` for every atom `a` and
string `s` (rank table numbers < strings < atoms).  The code's own test
`tests/test_basictypes.py::test_compare_types` (lines 169-170) asserts
`compare(a1, 10) == -1` and `compare(a1, "A") == -1`: atoms rank below
numbers and strings, so both comparisons return `-1`, not `1`. -/
theorem compare_atom_below_number_cex :
    compare (.atom "a" 1) (.num 10) = -1 ∧
    ¬ compare (.atom "a" 1) (.num 10) = 1 ∧
    compare (.atom "a" 1) (.str "A") = -1 ∧
    ¬ compare (.atom "a" 1) (.str "A") = 1 := by
  decide

/-- C1, amended: for every pair of values of different type categories,
`compare` resolves the comparison by the fixed type rank
atoms < numbers < strings < tuples/sequences < maps, never by value; in
particular for every atom `a` and every number `n`, `compare(a, n) = -1`,
and for every atom `a` and string `s`, `compare(a, s) = -1`. -/
theorem compare_cross_type_by_rank :
    (∀ v w : Value, typeRank v < typeRank w → compare v w = -1) ∧
    (∀ v w : Value, typeRank w < typeRank v → compare v w = 1) ∧
    (∀ (s : String) (i : Nat) (n : Int), compare (.atom s i) (.num n) = -1) ∧
    (∀ (s : String) (i : Nat) (t : String), compare (.atom s i) (.str t) = -1) := by
  refine ⟨fun v w h => ?_, fun v w h => ?_, fun s i n => rfl, fun s i t => rfl⟩ <;>
    cases v <;> cases w <;> simp [typeRank] at h <;> rfl

/-- C1, witness for the amended theorem: instantiated at an atom against a
number and at a map against a sequence. -/
theorem compare_cross_type_by_rank_witness :
    compare (.atom "x" 5) (.num 42) = -1 ∧
    compare (.map .nil) (.seq .nil) = 1 :=
  ⟨compare_cross_type_by_rank.1 _ _ (by decide),
   compare_cross_type_by_rank.2.1 _ _ (by decide)⟩

/-- C7: composing `filter` then `map` preserves the parent's position
space for step addressing — `Range(10).filter(even).map(x*10)` has the
same `steps` as `Range(10)`, and `iterate_steps` over positions `[2, 5)`
yields exactly `[20, 40]`. -/
theorem filter_map_iterate_steps :
    (((Range 10).filter (fun x => x % 2 == 0)).map (fun x => x * 10)).iterate_steps 2 5
      = [20, 40] ∧
    (((Range 10).filter (fun x => x % 2 == 0)).map (fun x => x * 10)).steps
      = (Range 10).steps := by
  exact ⟨by decide, rfl⟩

/-- C8: `take(a).take(b)` behaves as `take(min(a, b))` — the composed
domain's size equals the size of the single capped take (that is,
`min(a, b, parent.size)` when the parent size is known); in particular
`Range(10).take(7).take(3).size == 3` and `Range(10).take(100).size == 10`. -/
theorem take_take_size :
    (∀ (α : Type) (d : Dom α) (a b : Nat),
      ((d.take a).take b).size = (d.take (min a b)).size) ∧
    (((Range 10).take 7).take 3).size = some 3 ∧
    ((Range 10).take 100).size = some 10 := by
  refine ⟨fun α d a b => ?_, rfl, rfl⟩
  cases hd : d.size <;> simp [Dom.take, capSize, hd, Nat.min_assoc]

/-- C9: `compare2` compares the structures after substituting, in each
operand, every atom present in that operand's own bindings map with its
bound value; atoms absent from their bindings map compare literally.  In
particular (with `a1 = atom("a", 0)`, `a2 = atom("a", 1)` as in
`tests/test_basictypes.py::test_compare2_atoms`):
`compare2(a2, {}, a2, {a2: a1}) == 1` and
`compare2(a1, {a1: a2}, a2, {a2: a1}) == 1`. -/
theorem compare2_substitutes_bindings :
    (∀ (v1 v2 : Value) (b1 b2 : Bindings),
      compare2 v1 b1 v2 b2 = compare (substAtoms b1 v1) (substAtoms b2 v2)) ∧
    (∀ (b : Bindings) (s : String) (i : Nat) (t : String) (j : Nat),
      lookupAtom b (s, i) = some (t, j) → substAtoms b (.atom s i) = .atom t j) ∧
    (∀ (b : Bindings) (s : String) (i : Nat),
      lookupAtom b (s, i) = none → substAtoms b (.atom s i) = .atom s i) ∧
    compare2 (.atom "a" 1) [] (.atom "a" 1) [(("a", 1), ("a", 0))] = 1 ∧
    compare2 (.atom "a" 0) [(("a", 0), ("a", 1))] (.atom "a" 1) [(("a", 1), ("a", 0))] = 1 := by
  refine ⟨fun _ _ _ _ => rfl, fun b s i t j h => ?_, fun b s i h => ?_, by decide, by decide⟩ <;>
    simp [substAtoms, h]

/-- C9, witness: the substitution rule instantiated at a one-entry
bindings map (present and absent lookups). -/
theorem compare2_substitutes_bindings_witness :
    substAtoms [(("a", 0), ("b", 7))] (.atom "a" 0) = .atom "b" 7 ∧
    substAtoms [(("a", 0), ("b", 7))] (.atom "a" 1) = .atom "a" 1 :=
  ⟨compare2_substitutes_bindings.2.1 _ "a" 0 "b" 7 (by decide),
   compare2_substitutes_bindings.2.2.1 _ "a" 1 (by decide)⟩

/-! #### Scheduler helper lemmas -/

/-- Unfolding of `iterate_jobs` over a terminating polling loop. -/
theorem iterate_jobs_of_pollLoop (te : Bool) (env : List (EnvStep α))
    (out : LoopOut α) (hp : pollLoop te env false false [] [] = some out) :
    iterate_jobs te env = some (sortJobs (jobsRetained out)) := by
  unfold iterate_jobs
  rw [hp]
  rfl

/-- Unfolding of `run` over a terminating polling loop. -/
theorem run_of_pollLoop (te : Bool) (env : List (EnvStep (List β)))
    (out : LoopOut (List β)) (ds dz : Option Nat)
    (g : Option (β → β → β)) (gi : Option (Unit → β))
    (hp : pollLoop te env false false [] [] = some out) :
    run te env ds dz g gi
      = some (runPost ds dz g gi
          (((sortJobs (jobsRetained out)).map Job.result).flatten)) := by
  unfold run
  rw [iterate_jobs_of_pollLoop te env out hp]
  rfl

/-- `runPost` without a global reduce function returns the trimmed list. -/
theorem runPost_global_none (ds dz : Option Nat) (gi : Option (Unit → γ))
    (l : List γ) :
    runPost ds dz none gi l = ⟨.inl (trimResults ds dz l), false, false⟩ := rfl

/-- `runPost` with a global reduce function but an empty (trimmed) result
list returns the empty list and invokes neither the reduce function nor
the init callable. -/
theorem runPost_global_nil (ds dz : Option Nat) (f : γ → γ → γ)
    (gi : Option (Unit → γ)) (l : List γ) (h : trimResults ds dz l = []) :
    runPost ds dz (some f) gi l = ⟨.inl [], false, false⟩ := by
  simp only [runPost, h]

/-- `runPost` with a global reduce function and no init folds the tail of
the (trimmed) results from the first result. -/
theorem runPost_global_cons (ds dz : Option Nat) (f : γ → γ → γ)
    (r : γ) (rs l : List γ) (h : trimResults ds dz l = r :: rs) :
    runPost ds dz (some f) none l = ⟨.inr (rs.foldl f r), true, false⟩ := by
  simp only [runPost, h]

/-- `runPost` with a global reduce function and an init callable folds the
whole (trimmed) result list from `global_reduce_init()`. -/
theorem runPost_global_cons_init (ds dz : Option Nat) (f : γ → γ → γ)
    (i : Unit → γ) (r : γ) (rs l : List γ) (h : trimResults ds dz l = r :: rs) :
    runPost ds dz (some f) (some i) l
      = ⟨.inr ((r :: rs).foldl f (i ())), true, true⟩ := by
  simp only [runPost, h]

/-- C2: for every run of the scheduler — that is, for every environment
trace of completions, flag updates, timeouts and interrupts, hence
regardless of the order in which dispatched jobs complete — the job list
returned by `iterate_jobs` is sorted by `start_index` ascending. -/
theorem iterate_jobs_sorted (te : Bool) (env : List (EnvStep α))
    (jobs : List (Job α)) (h : iterate_jobs te env = some jobs) :
    jobs.Sorted jobLE := by
  unfold iterate_jobs at h
  cases hp : pollLoop te env false false [] [] with
  | none => rw [hp] at h; simp at h
  | some out =>
      rw [hp] at h
      simp only [Option.map_some'] at h
      cases h
      simpa [sortJobs] using List.sorted_insertionSort jobLE (jobsRetained out)

/-- C2, witness: a trace in which the job at `start_index = 2` completes
before the job at `start_index = 0`; the returned list is nevertheless
sorted ascending. -/
theorem iterate_jobs_sorted_witness :
    List.Sorted jobLE [(⟨0, 2, [3, 4]⟩ : Job (List Nat)), ⟨2, 2, [5, 6]⟩] :=
  iterate_jobs_sorted true
    [⟨[⟨2, 2, [5, 6]⟩], false, false, false, false⟩,
     ⟨[⟨0, 2, [3, 4]⟩], false, false, false, false⟩,
     ⟨[], true, false, false, false⟩]
    [⟨0, 2, [3, 4]⟩, ⟨2, 2, [5, 6]⟩] (by decide)

/-- C5, counterexample: a run that ends by timeout while a completed job
is still sitting unfetched in the queue.  The `TimeoutException` raised on
line 40 jumps over the drain loop (lines 50-55, inside the `try` block) to
the handler, so the queued completed job is NOT retained:
`iterate_jobs` returns the empty list even though the loop exited with
the job in the queue. -/
theorem timeout_skips_queue_drain_cex :
    pollLoop true [⟨[⟨0, 3, [1, 2]⟩], false, false, true, false⟩]
        false false ([] : List (Job (List Nat))) []
      = some ⟨.timeout, [], [⟨0, 3, [1, 2]⟩]⟩ ∧
    iterate_jobs true [⟨[(⟨0, 3, [1, 2]⟩ : Job (List Nat))], false, false, true, false⟩]
      = some [] := by
  decide

/-- C5, amended: only a run that ends through the `completed`/`canceled`
flags (normal loop exit, which includes cancellation) drains the
completed-but-unfetched jobs from the queue into the returned job list;
a run that ends by timeout or interrupt skips the drain and retains
exactly the jobs fetched before the exit. -/
theorem iterate_jobs_drain_on_flag_exit (te : Bool) (env : List (EnvStep α))
    (out : LoopOut α) (jobs : List (Job α))
    (hp : pollLoop te env false false [] [] = some out)
    (hj : iterate_jobs te env = some jobs) :
    (out.exit = .normal →
      ∀ j : Job α, j ∈ out.fetched ∨ j ∈ out.queueAtExit → j ∈ jobs) ∧
    (out.exit = .timeout ∨ out.exit = .interrupt →
      ∀ j : Job α, j ∈ jobs ↔ j ∈ out.fetched) := by
  have hjobs : jobs = sortJobs (jobsRetained out) := by
    rw [iterate_jobs_of_pollLoop te env out hp] at hj
    exact (Option.some_inj.mp hj).symm
  subst hjobs
  constructor
  · intro hex j hm
    simp only [sortJobs, List.mem_insertionSort, jobsRetained, hex, List.mem_append]
    exact hm
  · intro hex j
    rcases hex with hex | hex <;>
      simp only [sortJobs, List.mem_insertionSort, jobsRetained, hex]

/-- C5, witness for the amended theorem: a run canceled with one
completed job still unfetched in the queue retains that job in the
returned list. -/
theorem iterate_jobs_drain_on_flag_exit_witness :
    (⟨0, 1, [7]⟩ : Job (List Nat)) ∈ [(⟨0, 1, [7]⟩ : Job (List Nat))] :=
  (iterate_jobs_drain_on_flag_exit true
      [⟨[⟨0, 1, [7]⟩], false, true, false, false⟩]
      ⟨.normal, [], [⟨0, 1, [7]⟩]⟩ [⟨0, 1, [7]⟩]
      (by decide) (by decide)).1 rfl _ (Or.inr (by decide))

/-- C3: for every run over a domain with a declared logical size, the
concatenated result list is truncated to `domain.size` before being
returned, even when the last chunk enumerated past that size (the job
partitioner requires a positive `domain.steps`, hence the `some (k + 1)`
hypothesis making line 186 `if size:` truthy). -/
theorem run_trims_to_domain_size (te : Bool) (env : List (EnvStep (List β)))
    (k sz : Nat) (gi : Option (Unit → β)) (jobs : List (Job (List β)))
    (hj : iterate_jobs te env = some jobs) :
    run te env (some (k + 1)) (some sz) none gi
        = some ⟨.inl (((jobs.map Job.result).flatten).take sz), false, false⟩ ∧
    ((((jobs.map Job.result).flatten).take sz)).length ≤ sz := by
  constructor
  · unfold run
    rw [hj]
    rfl
  · exact List.length_take_le sz _

/-- C3, witness: a completed run whose single chunk enumerated five
elements over a domain whose declared size is three — the returned list
is the three-element truncation. -/
theorem run_trims_to_domain_size_witness :
    run true [⟨[⟨0, 5, [1, 2, 3, 4, 5]⟩], true, false, false, false⟩]
        (some 5) (some 3) (none : Option (Nat → Nat → Nat)) none
      = some ⟨Sum.inl [1, 2, 3], false, false⟩ ∧ ([1, 2, 3] : List Nat).length ≤ 3 :=
  run_trims_to_domain_size true
    [⟨[⟨0, 5, [1, 2, 3, 4, 5]⟩], true, false, false, false⟩] 4 3 none
    [⟨0, 5, [1, 2, 3, 4, 5]⟩] (by decide)

/-- C4: a run whose polling loop ends by timeout (or interrupt) does not
propagate the exception — both are caught inside `iterate_jobs`
(lines 57-61), which still reaches the final sort and return — and `run`
returns the results of the jobs fetched so far, sorted by `start_index`
and trimmed to the domain size. -/
theorem run_timeout_returns_partial (te : Bool) (env : List (EnvStep (List β)))
    (out : LoopOut (List β)) (k sz : Nat)
    (hp : pollLoop te env false false [] [] = some out)
    (hex : out.exit = .timeout ∨ out.exit = .interrupt) :
    run te env (some (k + 1)) (some sz) none none
        = some ⟨.inl ((((sortJobs out.fetched).map Job.result).flatten).take sz),
            false, false⟩ ∧
    List.Sorted jobLE (sortJobs out.fetched) := by
  have hjr : jobsRetained out = out.fetched := by
    rcases hex with hex | hex <;> simp [jobsRetained, hex]
  constructor
  · rw [run_of_pollLoop te env out _ _ none none hp, hjr]
    rfl
  · simpa [sortJobs] using List.sorted_insertionSort jobLE out.fetched

/-- C4, witness: one job is fetched, then the deadline expires; the run
returns that job's elements (trimmed), with no exception modelled as a
missing result. -/
theorem run_timeout_returns_partial_witness :
    run true [⟨[⟨0, 2, [10, 20]⟩], false, false, false, false⟩,
              ⟨[], false, false, true, false⟩]
        (some 4) (some 3) (none : Option (Nat → Nat → Nat)) none
      = some ⟨Sum.inl [10, 20], false, false⟩ ∧
    List.Sorted jobLE [(⟨0, 2, [10, 20]⟩ : Job (List Nat))] :=
  run_timeout_returns_partial true
    [⟨[⟨0, 2, [10, 20]⟩], false, false, false, false⟩,
     ⟨[], false, false, true, false⟩]
    ⟨.timeout, [⟨0, 2, [10, 20]⟩], []⟩ 3 3 (by decide) (Or.inl rfl)

/-- C6: for every completed run (normal loop exit): with no worker reduce
function the per-job results are concatenated in `start_index` order (the
sorted job list) and, after trimming, returned as the result list; when a
global reduce function is supplied, that (trimmed, `start_index`-ordered)
result list is folded with it left-to-right, starting from
`global_reduce_init()` when an init is supplied and from the first result
otherwise. -/
theorem run_concat_then_fold (te : Bool) (env : List (EnvStep (List β)))
    (out : LoopOut (List β)) (ds dz : Option Nat)
    (f : β → β → β) (i : Unit → β)
    (hp : pollLoop te env false false [] [] = some out)
    (hex : out.exit = .normal) :
    List.Sorted jobLE (sortJobs (out.fetched ++ out.queueAtExit)) ∧
    run te env ds dz none none
      = some ⟨.inl (trimResults ds dz
          (((sortJobs (out.fetched ++ out.queueAtExit)).map Job.result).flatten)),
          false, false⟩ ∧
    (∀ r rs, trimResults ds dz
        (((sortJobs (out.fetched ++ out.queueAtExit)).map Job.result).flatten) = r :: rs →
      run te env ds dz (some f) none = some ⟨.inr (rs.foldl f r), true, false⟩) ∧
    (∀ r rs, trimResults ds dz
        (((sortJobs (out.fetched ++ out.queueAtExit)).map Job.result).flatten) = r :: rs →
      run te env ds dz (some f) (some i)
        = some ⟨.inr ((r :: rs).foldl f (i ())), true, true⟩) := by
  have hjr : jobsRetained out = out.fetched ++ out.queueAtExit := by
    simp [jobsRetained, hex]
  refine ⟨by simpa [sortJobs] using
      List.sorted_insertionSort jobLE (out.fetched ++ out.queueAtExit),
    ?_, fun r rs h => ?_, fun r rs h => ?_⟩
  · rw [run_of_pollLoop te env out ds dz none none hp, hjr]
    rfl
  · rw [run_of_pollLoop te env out ds dz (some f) none hp, hjr,
      runPost_global_cons ds dz f r rs _ h]
  · rw [run_of_pollLoop te env out ds dz (some f) (some i) hp, hjr,
      runPost_global_cons_init ds dz f i r rs _ h]

/-- C6, witness: a completed run with two jobs arriving already queued;
concatenation in `start_index` order gives `[2, 5]`, the init-less global
fold gives `2 + 5 = 7`, and the fold seeded with `init() = 10` gives
`17`. -/
theorem run_concat_then_fold_witness :
    List.Sorted jobLE [(⟨0, 1, [2]⟩ : Job (List Nat)), ⟨1, 1, [5]⟩] ∧
    run true [⟨[⟨0, 1, [2]⟩, ⟨1, 1, [5]⟩], true, false, false, false⟩]
        (some 2) (some 2) none none
      = some ⟨Sum.inl [2, 5], false, false⟩ ∧
    run true [⟨[⟨0, 1, [2]⟩, ⟨1, 1, [5]⟩], true, false, false, false⟩]
        (some 2) (some 2) (some Nat.add) none
      = some ⟨Sum.inr 7, true, false⟩ ∧
    run true [⟨[⟨0, 1, [2]⟩, ⟨1, 1, [5]⟩], true, false, false, false⟩]
        (some 2) (some 2) (some Nat.add) (some fun _ => 10)
      = some ⟨Sum.inr 17, true, true⟩ := by
  have h := run_concat_then_fold true
    [⟨[⟨0, 1, [2]⟩, ⟨1, 1, [5]⟩], true, false, false, false⟩]
    ⟨.normal, [], [⟨0, 1, [2]⟩, ⟨1, 1, [5]⟩]⟩
    (some 2) (some 2) Nat.add (fun _ => 10) (by decide) rfl
  exact ⟨h.1, h.2.1, h.2.2.1 2 [5] (by decide), h.2.2.2 2 [5] (by decide)⟩

/-- C10: when a global reduce function is supplied but the (trimmed)
result list is empty — for example after a timeout with no completed
jobs — `run` returns the empty list without invoking the global reduce
function or the `global_reduce_init` callable (line 193 returns before
either is touched). -/
theorem run_empty_results_no_reduce (te : Bool) (env : List (EnvStep (List β)))
    (ds dz : Option Nat) (f : β → β → β) (gi : Option (Unit → β))
    (jobs : List (Job (List β)))
    (hj : iterate_jobs te env = some jobs)
    (hres : trimResults ds dz ((jobs.map Job.result).flatten) = []) :
    run te env ds dz (some f) gi = some ⟨.inl [], false, false⟩ := by
  unfold run
  rw [hj]
  simp only [Option.map_some']
  rw [runPost_global_nil ds dz f gi _ hres]

/-- C10, witness: an immediate timeout with no completed jobs; with a
global reduce function supplied, `run` returns the empty list and the
instrumentation flags record that neither the reduce function nor the
init callable was invoked. -/
theorem run_empty_results_no_reduce_witness :
    run true [⟨[], false, false, true, false⟩] (some 1) (some 5)
        (some Nat.add) (some fun _ => 3)
      = some ⟨Sum.inl [], false, false⟩ :=
  run_empty_results_no_reduce true [⟨[], false, false, true, false⟩]
    (some 1) (some 5) Nat.add (some fun _ => 3) [] (by decide) (by decide)

end Haydi
